import Mathlib

/-!
Verification development for the ScrapperTV protocol client.

Shallow embedding of the core components:
* the framing codec (`parseMessage` / `formatMessage` in `src/connection.ts`),
* the reconnect policy of the session manager and `close`,
* the event dispatcher (`subscribers.forEach`),
* the pagination engine (`getCandles` / `getCandlesMultiple` in `src/candles.ts`).

Strings are modelled as `List Char`; JavaScript numbers appearing in the
reconnect-delay formula are modelled as `ℚ` (in the range where the formula is
compared against concrete values, double-precision arithmetic on
`5000 * 1.5^n` and the `min` with `60000` is exact, so the `ℚ` model agrees
with the runtime values).
-/

namespace ScrapperTV

/-! ### Framing codec (`src/connection.ts`, `parseMessage` lines 28-64,
`formatMessage` lines 69-72)

`parseMessage` splits an incoming chunk on the regex `~m~\d+~m~` (a tilde-m
marker, one or more decimal digits, another tilde-m marker), drops the first
segment, and classifies every remaining segment.  `matchMarker` is the
leftmost-match test of that regex at the head of the list: the literal
three-character opening, a maximal nonempty run of digits, the literal
three-character closing.  (Backtracking cannot help the regex here: shortening
the greedy digit run leaves a digit where `~` is required, so maximal-run
matching is exactly the regex semantics.) -/

def matchMarker : List Char → Option (List Char)
  | a :: b :: c :: rest =>
    if a = '~' ∧ b = 'm' ∧ c = '~' then
      match rest.dropWhile Char.isDigit with
      | d :: e :: f :: rest2 =>
        if (rest.takeWhile Char.isDigit) ≠ [] ∧ d = '~' ∧ e = 'm' ∧ f = '~' then
          some rest2
        else none
      | _ => none
    else none
  | _ => none

/-- One step of the JavaScript `String.split(regex)` loop, fuelled so that the
definition is structural (fuel at least `length + 1` always suffices: every
step consumes at least one character).  `acc` is the current segment being
built, in reverse. -/
def splitMarkerAux : Nat → List Char → List Char → List (List Char)
  | _, acc, [] => [acc.reverse]
  | Nat.succ fuel, acc, c :: rest =>
    match matchMarker (c :: rest) with
    | some rem => acc.reverse :: splitMarkerAux fuel [] rem
    | none => splitMarkerAux fuel (c :: acc) rest
  | 0, acc, rest => [acc.reverse ++ rest]

/-- The split `message.split(/~m~\d+~m~/)` (line 31 of `src/connection.ts`). -/
def splitMarker (message : List Char) : List (List Char) :=
  splitMarkerAux (message.length + 1) [] message

/-- Decimal digits of `n`, fuelled (fuel above `n` suffices).  This is the
decimal rendering used by JavaScript template interpolation of a number. -/
def natDigitsAux : Nat → Nat → List Char
  | 0, _ => []
  | Nat.succ fuel, n =>
    if n < 10 then [Char.ofNat (48 + n)]
    else natDigitsAux fuel (n / 10) ++ [Char.ofNat (48 + n % 10)]

def natDigits (n : Nat) : List Char :=
  natDigitsAux (n + 1) n

/-- The length-prefixed envelope `~m~<decimal length of payload>~m~<payload>`.
This is the expression built both by the heartbeat branch of `parseMessage`
(line 36) and by `formatMessage` (line 71); JavaScript `.length` of a string
is its code-unit count, modelled as the character count. -/
def wrapEnvelope (payload : List Char) : List Char :=
  '~' :: 'm' :: '~' :: (natDigits payload.length ++ '~' :: 'm' :: '~' :: payload)

/-- Outgoing serialization: `formatMessage(name, params)` wraps the JSON body
in the envelope.  The JSON body is abstracted as an opaque character list. -/
def formatMessage (body : List Char) : List Char :=
  wrapEnvelope body

/-- A decoded frame.  The ping variant carries the prepared echo payload.  The
two JSON variants record which parse path the segment takes (`~j~`-tagged or
legacy); the `JSON.parse` call itself is a platform builtin and is not
modelled — both its success and its `catch` branch return exactly one payload
object, so frame count and order do not depend on it. -/
inductive MessagePayload where
  | ping (data : List Char)
  | jsonFrame (body : List Char)
  | legacyFrame (body : List Char)
deriving DecidableEq

/-- Classification of one segment (the body of the `events.map` callback,
lines 33-62 of `src/connection.ts`). -/
def classify (event : List Char) : MessagePayload :=
  if event.take 3 = ['~', 'h', '~'] then .ping (wrapEnvelope event)
  else if event.take 3 = ['~', 'j', '~'] then .jsonFrame (event.drop 3)
  else .legacyFrame event

/-- Decode: `parseMessage` (lines 28-64): empty-message guard, split on the marker,
drop the first segment (`.slice(1)`), classify each remaining segment. -/
def parseMessage (message : List Char) : List MessagePayload :=
  if message.isEmpty then []
  else ((splitMarker message).drop 1).map classify

/-- A well-formed frame on the wire: the payload wrapped in the envelope. -/
def encodeFrame (payload : List Char) : List Char :=
  wrapEnvelope payload

/-- Whether the string contains the three-character marker `~m~` anywhere. -/
def hasTM : List Char → Bool
  | a :: b :: c :: rest =>
    (decide (a = '~' ∧ b = 'm' ∧ c = '~')) || hasTM (b :: c :: rest)
  | _ => false

/-! ### Session manager (`src/connection.ts`, `connect` lines 127-277)

State captured by the closure of `connect`: the `connected` flag, the
reconnect attempt counter, the manual-close flag, and the `autoReconnect`
option. -/

structure ConnState where
  connected : Bool
  reconnectAttempts : Nat
  manuallyClosed : Bool
  autoReconnect : Bool
deriving DecidableEq

/-- Reconnect delay: `Math.min(5000 * Math.pow(1.5, attempts), 60000)` (line 181).  Modelled
over `ℚ`; for every `n` the double-precision value and the rational value give
the same result of the `min` (both sides are exact while below the cap, and
both are at least the cap from `n = 7` on). -/
def reconnectDelay (attempts : Nat) : ℚ :=
  min (5000 * (3 / 2) ^ attempts) 60000

/-- The socket open handler (`ws.on`, lines 171-174): resets the attempt counter. -/
def onSocketOpen (c : ConnState) : ConnState :=
  { c with reconnectAttempts := 0 }

/-- The socket close handler (`ws.on`, lines 176-186): clears `connected`; when
auto-reconnect is enabled and the close was not manual, schedules a reconnect
after `reconnectDelay attempts` and increments the counter.  The scheduled
delay (if any) is returned alongside the new state. -/
def onSocketClose (c : ConnState) : ConnState × Option ℚ :=
  if c.autoReconnect && !c.manuallyClosed then
    ({ c with connected := false, reconnectAttempts := c.reconnectAttempts + 1 },
      some (reconnectDelay c.reconnectAttempts))
  else
    ({ c with connected := false }, none)

/-- Manual close (lines 248-258): sets the manual-close flag and closes the
transport; it does not touch the subscriber registry and dispatches nothing
to subscribers. -/
def closeConn (c : ConnState) : ConnState :=
  { c with manuallyClosed := true }

/-! ### Event dispatcher (`src/connection.ts` line 223, `subscribe`
lines 230-235)

Dispatch is `subscribers.forEach((handler) => handler(event))`.  A handler is
modelled as returning `Except Unit Unit`: `.error` means the invocation threw.
`forEach` has no exception handling, so a throw propagates out of the
iteration and the remaining handlers are never invoked.  `forEachCalls`
counts how many handlers were actually invoked for one event. -/

def forEachCalls {ε : Type} (e : ε) : List (ε → Except Unit Unit) → Nat
  | [] => 0
  | h :: rest =>
    match h e with
    | .ok _ => 1 + forEachCalls e rest
    | .error _ => 1

/-! ### Pagination engine data model (`src/types.ts`, `src/candles.ts`) -/

/-- Wire bar shape `RawCandle` with fields `i: number` and `v: number[]`; `v` is
`[timestamp, open, high, low, close, volume]`.  Prices and timestamps are the
integers the service delivers. -/
structure RawCandle where
  i : Int
  v : List Int
deriving DecidableEq

/-- Timestamp key `c.v[0]` used for dedup and sorting. -/
def tsOf (c : RawCandle) : Int :=
  c.v.headD 0

/-- The public `Candle` record (`src/types.ts`).  The source also carries
`datetime`, the ISO-8601 rendering of `timestamp * 1000`; being a pure
display derivation of `timestamp` through platform date formatting, it is not
modelled.  `openPrice` is the source field `open` (a Lean keyword). -/
structure Candle where
  timestamp : Int
  openPrice : Int
  high : Int
  low : Int
  close : Int
  volume : Int
deriving DecidableEq

/-- The final per-bar mapping in `getCandles` (lines 130-138); `c.v[5] || 0`
yields the volume when present and nonzero, and `0` when it is `0` or the
array is short — both collapse to `getD 5 0` on integer data. -/
def toCandle (c : RawCandle) : Candle :=
  { timestamp := tsOf c
    openPrice := c.v.getD 1 0
    high := c.v.getD 2 0
    low := c.v.getD 3 0
    close := c.v.getD 4 0
    volume := c.v.getD 5 0 }

/-! JavaScript `Map` as an association list in key-insertion order:
`set` overwrites in place when the key exists and appends otherwise;
`Array.from(map.values())` is `map Prod.snd`. -/

def jsMapSet {α β : Type} [DecidableEq α] (m : List (α × β)) (k : α) (v : β) :
    List (α × β) :=
  if k ∈ m.map Prod.fst then m.map (fun p => if p.1 = k then (k, v) else p)
  else m ++ [(k, v)]

/-- Build a JavaScript `Map` from a list by `l.forEach(x => m.set(key x, val x))`. -/
def jsMapOf {α β γ : Type} [DecidableEq α] (key : γ → α) (val : γ → β)
    (l : List γ) : List (α × β) :=
  l.foldl (fun m x => jsMapSet m (key x) (val x)) []

/-- First-match association lookup (JavaScript `Map.get` / object property
access; keys in a `Map` are unique, so first match is the match). -/
def jsLookup {α β : Type} [DecidableEq α] : α → List (α × β) → Option β
  | _, [] => none
  | a, p :: m => if a = p.1 then some p.2 else jsLookup a m

/-- The value of the last `set` for key `a` while folding `l` left-to-right:
the last element of `l` with that key. -/
def lastWrite {γ α : Type} [DecidableEq α] (key : γ → α) (a : α) :
    List γ → Option γ
  | [] => none
  | x :: xs =>
    match lastWrite key a xs with
    | some y => some y
    | none => if key x = a then some x else none

/-- The dedup-and-sort step of the completion handler
(`src/candles.ts` lines 80-83): fill a `Map` keyed by `c.v[0]` (last write
wins), take its values in key-insertion order, sort ascending by `c.v[0]`. -/
def dedupSort (rawCandles : List RawCandle) : List RawCandle :=
  List.insertionSort (fun a b => tsOf a ≤ tsOf b)
    ((jsMapOf tsOf id rawCandles).map Prod.snd)

/-- The data-push merge (`src/candles.ts` lines 59-66): the first batch is
assigned, later batches are prepended (`newCandles.concat(rawCandles)`). -/
def accumulate (rawCandles newCandles : List RawCandle) : List RawCandle :=
  if rawCandles.isEmpty then newCandles else newCandles ++ rawCandles

/-- The request parameters captured by the `getCandles` closure: the freshly
generated chart session id and the optional `amount` / `from` / `to`
(`from` and `to` renamed, both being Lean keywords).  `none` models a
JavaScript `undefined`. -/
structure FetchParams where
  chartSession : List Char
  amount : Option Nat
  fromTs : Option Int
  toTs : Option Int
deriving DecidableEq

/-- JavaScript truthiness of an optional number (`undefined` and `0` are
falsy). -/
def truthyN : Option Nat → Bool
  | none => false
  | some n => decide (n ≠ 0)

def truthyI : Option Int → Bool
  | none => false
  | some n => decide (n ≠ 0)

/-- Mutable locals of the `getCandles` promise executor (lines 36-40), minus
the `resolved` flag and timer, which the run relation tracks separately. -/
structure FetchState where
  rawCandles : List RawCandle
  requestCount : Nat
  lastLength : Nat
  stallCount : Nat
deriving DecidableEq

def initFetchState : FetchState :=
  { rawCandles := [], requestCount := 0, lastLength := 0, stallCount := 0 }

/-- Finalization (lines 129-152): map to `Candle`, apply the `from` / `to`
filters when truthy, and when `amount` is truthy, `from` is falsy and the
result is longer than `amount`, keep the most recent `amount` entries
(`slice(-amount)`). -/
def finalize (p : FetchParams) (raw : List RawCandle) : List Candle :=
  let f0 := raw.map toCandle
  let f1 := if truthyI p.fromTs then
      f0.filter (fun c => p.fromTs.getD 0 ≤ c.timestamp) else f0
  let f2 := if truthyI p.toTs then
      f1.filter (fun c => c.timestamp ≤ p.toTs.getD 0) else f1
  if truthyN p.amount && !truthyI p.fromTs &&
      decide (p.amount.getD 0 < f2.length) then
    f2.drop (f2.length - p.amount.getD 0)
  else f2

/-- The stall-counter update (lines 89-95): the counter advances only when at
least one follow-up request was already issued and the deduplicated length did
not change; otherwise it resets to 0. -/
def stallAfter (s : FetchState) (currentLength : Nat) : Nat :=
  if s.requestCount > 0 ∧ currentLength = s.lastLength then s.stallCount + 1
  else 0

/-- The `needMore` decision (lines 97-114): the `from` criterion first (oldest
retained bar still newer than `from`), then the `amount` criterion (fewer bars
than requested), each cancelled when the stall counter has reached 3.
`from`/`amount` participate only when truthy. -/
def needMoreAfter (p : FetchParams) (raw : List RawCandle) (stall : Nat) : Bool :=
  let oldestAbove : Bool :=
    match raw.head? with
    | some oldest => decide (p.fromTs.getD 0 < tsOf oldest)
    | none => false
  if truthyI p.fromTs && oldestAbove then
    if stall ≥ 3 then false else true
  else if truthyN p.amount && decide (raw.length < p.amount.getD 0) then
    if stall ≥ 3 then false else true
  else false

/-- Outcome of one handler invocation: the closure state after the
invocation, whether a `request_more_data` command reached `connection.send`,
the resolution value if the fetch finished, and whether the invocation threw.
The one throw site is the log template on line 118 (see `onCompletion`);
mutations made before the throw persist in `state`, since they happened
before the exception. -/
structure HandlerOut where
  state : FetchState
  sentRequest : Bool
  resolvedValue : Option (List Candle)
  threw : Bool
deriving DecidableEq

/-- The completion branch of the subscriber (lines 74-156), entered for
`series_completed` and `symbol_error` events.  Mirrors the source order:
dedup and sort the accumulator, update the stall counter and `lastLength`,
decide `needMore`, then either request `MAX_BATCH_SIZE` more units or
finalize and resolve.  In the `needMore` branch the code first increments
`requestCount` (line 117) and then builds a log template dereferencing
`oldestCandle.v[0]` (line 118); when the deduplicated accumulator is empty,
`oldestCandle` is `undefined` and this throws a TypeError BEFORE
`connection.send` on line 119, so no request is sent.  (The `needMore = true`
with empty accumulator case is reachable only through the `amount` criterion;
the `from` criterion requires a truthy `oldestCandle`.)  The finalize branch
uses optional chaining in its log (line 154) and cannot throw. -/
def onCompletion (p : FetchParams) (s : FetchState) : HandlerOut :=
  let raw := dedupSort s.rawCandles
  let stall := stallAfter s raw.length
  if needMoreAfter p raw stall then
    match raw.head? with
    | some _ =>
      { state := { rawCandles := raw, requestCount := s.requestCount + 1,
                   lastLength := raw.length, stallCount := stall },
        sentRequest := true, resolvedValue := none, threw := false }
    | none =>
      { state := { rawCandles := raw, requestCount := s.requestCount + 1,
                   lastLength := raw.length, stallCount := stall },
        sentRequest := false, resolvedValue := none, threw := true }
  else
    { state := { rawCandles := raw, requestCount := s.requestCount,
                 lastLength := raw.length, stallCount := stall },
      sentRequest := false, resolvedValue := some (finalize p raw),
      threw := false }

/-- The events the subscriber handler inspects, with the session id embedded
in their payload (`params[0]`); for `timescale_update`, `params[1]` is the
series map whose `sds_1` entry holds an object with an `s` array, flattened here
to the `s` array. -/
inductive TVEvent where
  | timescaleUpdate (session : List Char) (series : List (List Char × List RawCandle))
  | seriesCompleted (session : List Char)
  | symbolError (session : List Char)
  | otherEvent (name : List Char)

/-- The subscriber handler of `getCandles` (lines 49-157).  Note that it
branches on the event name only: the session id carried by the event is never
compared with `p.chartSession`.  `symbol_error` is logged and then handled
exactly like `series_completed`. -/
def handleEvent (p : FetchParams) (s : FetchState) : TVEvent → HandlerOut
  | .timescaleUpdate _ series =>
    match jsLookup ('s' :: 'd' :: 's' :: '_' :: '1' :: []) series with
    | some bars =>
      { state := { s with rawCandles := accumulate s.rawCandles bars },
        sentRequest := false, resolvedValue := none, threw := false }
    | none =>
      { state := s, sentRequest := false, resolvedValue := none,
        threw := false }
  | .seriesCompleted _ => onCompletion p s
  | .symbolError _ => onCompletion p s
  | .otherEvent _ =>
    { state := s, sentRequest := false, resolvedValue := none, threw := false }

/-- Accumulated outcome of a run: final state, number of `request_more_data`
commands actually sent, resolution value, and whether a handler invocation
threw. -/
structure RunOut where
  state : FetchState
  requests : Nat
  result : Option (List Candle)
  threw : Bool
deriving DecidableEq

/-- Run the handler over a sequence of delivered events, stopping at
resolution (the source unsubscribes there) and at a throw (the exception
escapes the unguarded `subscribers.forEach` dispatch and the message
listener, so the remaining behaviour of the process is not modelled beyond
the fact that no request was sent and the fetch was not resolved). -/
def runEvents (p : FetchParams) : FetchState → List TVEvent → RunOut
  | s, [] => ⟨s, 0, none, false⟩
  | s, e :: rest =>
    let step := handleEvent p s e
    if step.threw then
      ⟨step.state, if step.sentRequest then 1 else 0, none, true⟩
    else
      match step.resolvedValue with
      | some r => ⟨step.state, if step.sentRequest then 1 else 0, some r, false⟩
      | none =>
        let next := runEvents p step.state rest
        ⟨next.state, (if step.sentRequest then 1 else 0) + next.requests,
          next.result, next.threw⟩

/-- Multi-symbol fetch `getCandlesMultiple` (lines 187-211): sequentially fetch each symbol,
catching any failure and storing `[]` for that symbol.  The per-symbol
`getCandles` outcome is abstracted as `fetchResult`; the `try`/`catch` around
the only fallible call makes the whole function total. -/
def getCandlesMultiple (fetchResult : List Char → Except Unit (List Candle))
    (symbols : List (List Char)) : List (List Char × List Candle) :=
  jsMapOf id
    (fun sym => match fetchResult sym with
      | .ok candles => candles
      | .error _ => [])
    symbols

/-! ### Close / timeout interaction (`close` lines 248-258, the fetch timeout
lines 42-47)

A small transition system over one connection and one in-flight fetch.  The
error taxonomy of the specification distinguishes `Timeout` from
`ConnectionError`; the only `reject` in `getCandles` is the 120s timer with a
timeout error (line 45), so that is the only rejected outcome any action can
produce. -/

inductive FetchErrorKind where
  | timeout
  | connectionError
deriving DecidableEq

inductive FetchOutcome where
  | pending
  | resolvedWith (bars : List Candle)
  | rejected (kind : FetchErrorKind)
deriving DecidableEq

structure Sys where
  conn : ConnState
  fetch : FetchState
  outcome : FetchOutcome

/-- What can happen to the pending fetch: a frame is dispatched to its
handler, the caller invokes `close()` (which also fires the transport close),
or the 120s timer of the fetch fires. -/
inductive SysAction where
  | deliver (e : TVEvent)
  | closeCall
  | timeoutFire

def sysStep (p : FetchParams) (st : Sys) : SysAction → Sys
  | .deliver e =>
    match st.outcome with
    | .pending =>
      -- a throwing invocation settles nothing either: resolvedValue is none
      -- whenever threw is true, and the promise stays pending
      let step := handleEvent p st.fetch e
      match step.resolvedValue with
      | some r => { st with fetch := step.state, outcome := .resolvedWith r }
      | none => { st with fetch := step.state, outcome := .pending }
    | _ => st
  | .closeCall =>
    -- close() sets the manual flag, the transport close handler runs; the
    -- pending fetch promise is not settled and its handler receives nothing
    { st with conn := (onSocketClose (closeConn st.conn)).1 }
  | .timeoutFire =>
    match st.outcome with
    | .pending => { st with outcome := .rejected .timeout }
    | _ => st

def runSys (p : FetchParams) (st : Sys) (acts : List SysAction) : Sys :=
  acts.foldl (sysStep p) st

/-! ### Lemmas about the JavaScript `Map` model -/

section MapLemmas

variable {α β γ : Type} [DecidableEq α]

theorem keys_jsMapSet (m : List (α × β)) (k : α) (v : β) :
    (jsMapSet m k v).map Prod.fst =
      if k ∈ m.map Prod.fst then m.map Prod.fst else m.map Prod.fst ++ [k] := by
  unfold jsMapSet
  split
  · rw [List.map_map]
    refine List.map_congr_left (fun p _ => ?_)
    by_cases h : p.1 = k
    · simp [h]
    · simp [h]
  · simp

theorem jsLookup_append (a : α) (m₁ m₂ : List (α × β)) :
    jsLookup a (m₁ ++ m₂) =
      match jsLookup a m₁ with
      | some v => some v
      | none => jsLookup a m₂ := by
  induction m₁ with
  | nil => simp [jsLookup]
  | cons p m₁ ih =>
    by_cases h : a = p.1
    · simp [jsLookup, h]
    · simpa [jsLookup, h] using ih

theorem jsLookup_eq_none_of_not_mem {a : α} {m : List (α × β)}
    (h : a ∉ m.map Prod.fst) : jsLookup a m = none := by
  induction m with
  | nil => rfl
  | cons p m ih =>
    simp only [List.map_cons, List.mem_cons] at h
    push_neg at h
    simpa [jsLookup, h.1] using ih h.2

theorem jsLookup_overwrite (m : List (α × β)) (k : α) (v : β) (a : α) :
    jsLookup a (m.map (fun p => if p.1 = k then (k, v) else p)) =
      if a = k ∧ k ∈ m.map Prod.fst then some v else jsLookup a m := by
  induction m with
  | nil => simp [jsLookup]
  | cons p m ih =>
    simp only [List.map_cons, jsLookup, ih]
    by_cases hak : a = k
    · subst hak
      by_cases hpk : p.1 = a
      · simp [hpk, List.mem_cons]
      · have hap : ¬a = p.1 := fun h => hpk h.symm
        rw [if_neg hpk, if_neg hap, if_neg hap]
        refine if_congr ?_ rfl rfl
        constructor
        · rintro ⟨h1, h2⟩
          exact ⟨h1, List.mem_cons_of_mem _ h2⟩
        · rintro ⟨h1, h2⟩
          refine ⟨h1, ?_⟩
          rcases List.mem_cons.mp h2 with h | h
          · exact absurd h hap
          · exact h
    · have h1 : ¬(a = k ∧ k ∈ List.map Prod.fst m) := fun h => hak h.1
      have h2 : ¬(a = k ∧ k ∈ p.1 :: List.map Prod.fst m) := fun h => hak h.1
      rw [if_neg h1, if_neg h2]
      by_cases hpk : p.1 = k
      · have hap : ¬a = p.1 := fun h => hak (hpk ▸ h)
        simp [hpk, hak, hap]
      · simp [hpk]

theorem jsLookup_jsMapSet (m : List (α × β)) (k : α) (v : β) (a : α) :
    jsLookup a (jsMapSet m k v) = if a = k then some v else jsLookup a m := by
  unfold jsMapSet
  split
  · rename_i hmem
    rw [jsLookup_overwrite]
    by_cases hak : a = k
    · simp [hak, hmem]
    · simp [hak]
  · rename_i hmem
    rw [jsLookup_append]
    by_cases hak : a = k
    · subst hak
      rw [jsLookup_eq_none_of_not_mem hmem]
      simp [jsLookup]
    · cases h : jsLookup a m with
      | some w => simp [h, hak]
      | none => simp [h, jsLookup, hak]

theorem jsLookup_foldl (key : γ → α) (val : γ → β) (a : α) :
    ∀ (l : List γ) (m : List (α × β)),
      jsLookup a (l.foldl (fun m x => jsMapSet m (key x) (val x)) m) =
        match lastWrite key a l with
        | some x => some (val x)
        | none => jsLookup a m := by
  intro l
  induction l with
  | nil => intro m; rfl
  | cons c l ih =>
    intro m
    show jsLookup a (l.foldl _ (jsMapSet m (key c) (val c))) = _
    rw [ih]
    cases hlw : lastWrite key a l with
    | some y => simp [lastWrite, hlw]
    | none =>
      rw [jsLookup_jsMapSet]
      by_cases hac : a = key c
      · subst hac
        simp [lastWrite, hlw]
      · have : ¬key c = a := fun h => hac h.symm
        simp [lastWrite, hlw, hac, this]

theorem jsLookup_jsMapOf (key : γ → α) (val : γ → β) (a : α) (l : List γ) :
    jsLookup a (jsMapOf key val l) =
      match lastWrite key a l with
      | some x => some (val x)
      | none => none := by
  unfold jsMapOf
  rw [jsLookup_foldl]
  rfl

theorem mem_keys_jsMapSet {m : List (α × β)} {k : α} {v : β} {a : α} :
    a ∈ (jsMapSet m k v).map Prod.fst ↔ a ∈ m.map Prod.fst ∨ a = k := by
  rw [keys_jsMapSet]
  split
  · rename_i hmem
    constructor
    · exact Or.inl
    · rintro (h | rfl)
      · exact h
      · exact hmem
  · simp

theorem mem_keys_foldl (key : γ → α) (val : γ → β) (a : α) :
    ∀ (l : List γ) (m : List (α × β)),
      a ∈ ((l.foldl (fun m x => jsMapSet m (key x) (val x)) m).map Prod.fst) ↔
        a ∈ m.map Prod.fst ∨ a ∈ l.map key := by
  intro l
  induction l with
  | nil => simp
  | cons c l ih =>
    intro m
    show a ∈ ((l.foldl _ (jsMapSet m (key c) (val c))).map Prod.fst) ↔ _
    rw [ih, mem_keys_jsMapSet]
    simp [or_assoc, or_comm, or_left_comm]

theorem mem_keys_jsMapOf (key : γ → α) (val : γ → β) (a : α) (l : List γ) :
    a ∈ (jsMapOf key val l).map Prod.fst ↔ a ∈ l.map key := by
  unfold jsMapOf
  rw [mem_keys_foldl]
  simp

theorem nodup_keys_jsMapSet {m : List (α × β)} {k : α} {v : β}
    (h : (m.map Prod.fst).Nodup) : ((jsMapSet m k v).map Prod.fst).Nodup := by
  rw [keys_jsMapSet]
  split
  · exact h
  · rename_i hmem
    refine h.append (List.nodup_singleton k) ?_
    intro a ha hb
    simp only [List.mem_singleton] at hb
    subst hb
    exact hmem ha

theorem nodup_keys_foldl (key : γ → α) (val : γ → β) :
    ∀ (l : List γ) (m : List (α × β)), (m.map Prod.fst).Nodup →
      ((l.foldl (fun m x => jsMapSet m (key x) (val x)) m).map Prod.fst).Nodup := by
  intro l
  induction l with
  | nil => exact fun m h => h
  | cons c l ih => exact fun m h => ih _ (nodup_keys_jsMapSet h)

theorem nodup_keys_jsMapOf (key : γ → α) (val : γ → β) (l : List γ) :
    ((jsMapOf key val l).map Prod.fst).Nodup :=
  nodup_keys_foldl key val l [] List.nodup_nil

theorem mem_jsMapSet {m : List (α × β)} {k : α} {v : β} {p : α × β}
    (h : p ∈ jsMapSet m k v) : p ∈ m ∨ p = (k, v) := by
  unfold jsMapSet at h
  split at h
  · obtain ⟨q, hq, hfq⟩ := List.mem_map.mp h
    by_cases hqk : q.1 = k
    · right
      rw [if_pos hqk] at hfq
      exact hfq.symm
    · left
      rw [if_neg hqk] at hfq
      exact hfq ▸ hq
  · rcases List.mem_append.mp h with h | h
    · exact Or.inl h
    · exact Or.inr (List.mem_singleton.mp h)

theorem mem_foldl_jsMapOf (key : γ → α) (val : γ → β) :
    ∀ (l : List γ) (m : List (α × β)) (p : α × β),
      p ∈ l.foldl (fun m x => jsMapSet m (key x) (val x)) m →
        p ∈ m ∨ ∃ x ∈ l, p = (key x, val x) := by
  intro l
  induction l with
  | nil => exact fun m p h => Or.inl h
  | cons c l ih =>
    intro m p h
    rcases ih _ p h with h' | ⟨x, hx, rfl⟩
    · rcases mem_jsMapSet h' with h'' | rfl
      · exact Or.inl h''
      · exact Or.inr ⟨c, List.mem_cons_self c l, rfl⟩
    · exact Or.inr ⟨x, List.mem_cons_of_mem c hx, rfl⟩

theorem mem_jsMapOf {key : γ → α} {val : γ → β} {l : List γ} {p : α × β}
    (h : p ∈ jsMapOf key val l) : ∃ x ∈ l, p = (key x, val x) := by
  rcases mem_foldl_jsMapOf key val l [] p h with h' | h'
  · cases h'
  · exact h'

theorem jsLookup_of_mem_nodup :
    ∀ {m : List (α × β)}, (m.map Prod.fst).Nodup → ∀ {p : α × β}, p ∈ m →
      jsLookup p.1 m = some p.2 := by
  intro m
  induction m with
  | nil => intro _ p h; cases h
  | cons q m ih =>
    intro hnd p hp
    simp only [List.map_cons, List.nodup_cons] at hnd
    rcases List.mem_cons.mp hp with rfl | hp'
    · simp [jsLookup]
    · have hne : p.1 ≠ q.1 := by
        intro h
        exact hnd.1 (h ▸ List.mem_map_of_mem Prod.fst hp')
      simpa [jsLookup, hne] using ih hnd.2 hp'

theorem length_jsMapSet_not_mem {m : List (α × β)} {k : α} (v : β)
    (h : k ∉ m.map Prod.fst) : (jsMapSet m k v).length = m.length + 1 := by
  unfold jsMapSet
  rw [if_neg h]
  simp

theorem length_foldl_nodup (key : γ → α) (val : γ → β) :
    ∀ (l : List γ) (m : List (α × β)), (l.map key).Nodup →
      (∀ a ∈ l.map key, a ∉ m.map Prod.fst) →
      (l.foldl (fun m x => jsMapSet m (key x) (val x)) m).length =
        m.length + l.length := by
  intro l
  induction l with
  | nil => simp
  | cons c l ih =>
    intro m hnd hdisj
    simp only [List.map_cons, List.nodup_cons] at hnd
    show (l.foldl _ (jsMapSet m (key c) (val c))).length = _
    rw [ih _ hnd.2]
    · rw [length_jsMapSet_not_mem (val c)
        (hdisj (key c) (List.mem_cons_self _ _))]
      simp [Nat.add_assoc, Nat.add_comm 1]
    · intro a ha
      rw [mem_keys_jsMapSet]
      rintro (h | rfl)
      · exact hdisj a (List.mem_cons_of_mem _ ha) h
      · exact hnd.1 ha

theorem length_jsMapOf_nodup (key : γ → α) (val : γ → β) {l : List γ}
    (h : (l.map key).Nodup) : (jsMapOf key val l).length = l.length := by
  unfold jsMapOf
  rw [length_foldl_nodup key val l [] h (by simp)]
  simp

end MapLemmas

/-! ### Lemmas about `dedupSort` -/

section DedupLemmas

instance : IsTotal RawCandle (fun a b => tsOf a ≤ tsOf b) :=
  ⟨fun a b => le_total (tsOf a) (tsOf b)⟩

instance : IsTrans RawCandle (fun a b => tsOf a ≤ tsOf b) :=
  ⟨fun _ _ _ h h2 => le_trans h h2⟩

theorem dedupSort_perm (l : List RawCandle) :
    List.Perm (dedupSort l) ((jsMapOf tsOf id l).map Prod.snd) :=
  List.perm_insertionSort _ _

theorem fst_eq_tsOf_snd {l : List RawCandle} {p : Int × RawCandle}
    (h : p ∈ jsMapOf tsOf id l) : p.1 = tsOf p.2 := by
  obtain ⟨x, _, rfl⟩ := mem_jsMapOf h
  rfl

theorem map_tsOf_values (l : List RawCandle) :
    ((jsMapOf tsOf id l).map Prod.snd).map tsOf = (jsMapOf tsOf id l).map Prod.fst := by
  rw [List.map_map]
  refine List.map_congr_left fun p hp => ?_
  exact (fst_eq_tsOf_snd hp).symm

theorem dedupSort_ts_nodup (l : List RawCandle) : ((dedupSort l).map tsOf).Nodup := by
  have hperm : List.Perm ((dedupSort l).map tsOf) (((jsMapOf tsOf id l).map Prod.snd).map tsOf) :=
    (dedupSort_perm l).map tsOf
  rw [map_tsOf_values] at hperm
  exact hperm.nodup_iff.mpr (nodup_keys_jsMapOf tsOf id l)

theorem dedupSort_sorted_le (l : List RawCandle) :
    List.Sorted (fun a b => tsOf a ≤ tsOf b) (dedupSort l) :=
  List.sorted_insertionSort _ _

theorem dedupSort_sorted_lt (l : List RawCandle) :
    (dedupSort l).Pairwise (fun a b => tsOf a < tsOf b) := by
  have hs : (dedupSort l).Pairwise (fun a b => tsOf a ≤ tsOf b) := dedupSort_sorted_le l
  have hn : (dedupSort l).Pairwise (fun a b => tsOf a ≠ tsOf b) :=
    List.pairwise_map.mp (dedupSort_ts_nodup l)
  exact (hs.and hn).imp (fun h => lt_of_le_of_ne h.1 h.2)

theorem mem_ts_dedupSort (l : List RawCandle) (t : Int) :
    t ∈ (dedupSort l).map tsOf ↔ t ∈ l.map tsOf := by
  have hperm : List.Perm ((dedupSort l).map tsOf) ((jsMapOf tsOf id l).map Prod.fst) := by
    have h := (dedupSort_perm l).map tsOf
    rwa [map_tsOf_values] at h
  rw [hperm.mem_iff]
  exact mem_keys_jsMapOf tsOf id t l

theorem dedupSort_lastWrite {l : List RawCandle} {c : RawCandle}
    (h : c ∈ dedupSort l) : lastWrite tsOf (tsOf c) l = some c := by
  have hmem : c ∈ (jsMapOf tsOf id l).map Prod.snd := (dedupSort_perm l).mem_iff.mp h
  obtain ⟨p, hp, hpc⟩ := List.mem_map.mp hmem
  have hfst : p.1 = tsOf p.2 := fst_eq_tsOf_snd hp
  have hlook := jsLookup_of_mem_nodup (nodup_keys_jsMapOf tsOf id l) hp
  rw [jsLookup_jsMapOf] at hlook
  subst hpc
  rw [← hfst]
  cases hlw : lastWrite tsOf p.1 l with
  | none =>
    rw [hlw] at hlook
    exact absurd hlook (by simp)
  | some x =>
    rw [hlw] at hlook
    exact hlook

theorem dedupSort_length (l : List RawCandle) :
    (dedupSort l).length = (jsMapOf tsOf id l).length := by
  rw [(dedupSort_perm l).length_eq, List.length_map]

theorem dedupSort_length_of_nodup {l : List RawCandle}
    (h : (l.map tsOf).Nodup) : (dedupSort l).length = l.length := by
  rw [dedupSort_length, length_jsMapOf_nodup tsOf id h]

theorem dedupSort_idem_length (l : List RawCandle) :
    (dedupSort (dedupSort l)).length = (dedupSort l).length :=
  dedupSort_length_of_nodup (dedupSort_ts_nodup l)

theorem dedupSort_ne_nil {l : List RawCandle} (h : l ≠ []) :
    dedupSort l ≠ [] := by
  cases l with
  | nil => exact absurd rfl h
  | cons c t =>
    intro hd
    have hmem : tsOf c ∈ (dedupSort (c :: t)).map tsOf :=
      (mem_ts_dedupSort (c :: t) (tsOf c)).mpr (by simp)
    rw [hd] at hmem
    cases hmem

end DedupLemmas

/-! ### Lemmas about the framing codec -/

section CodecLemmas

theorem matchMarker_some_len {l r : List Char} (h : matchMarker l = some r) :
    r.length < l.length := by
  match l with
  | [] => simp [matchMarker] at h
  | [a] => simp [matchMarker] at h
  | [a, b] => simp [matchMarker] at h
  | a :: b :: c :: rest =>
    simp only [matchMarker] at h
    split at h
    · split at h
      · rename_i d e f rest2 heq
        split at h
        · injection h with h
          subst h
          have hsplit := List.takeWhile_append_dropWhile Char.isDigit (l := rest)
          have hlen : rest.length =
              (rest.takeWhile Char.isDigit).length +
                (rest.dropWhile Char.isDigit).length := by
            conv_lhs => rw [← hsplit]
            exact List.length_append _ _
          rw [heq] at hlen
          simp only [List.length_cons] at hlen ⊢
          omega
        · exact absurd h (by simp)
      · exact absurd h (by simp)
    · exact absurd h (by simp)

theorem isDigit_ofNat_digit (d : Nat) (h : d < 10) :
    (Char.ofNat (48 + d)).isDigit = true := by
  interval_cases d <;> decide

theorem natDigitsAux_spec : ∀ (fuel n : Nat), n < fuel →
    natDigitsAux fuel n ≠ [] ∧ ∀ c ∈ natDigitsAux fuel n, c.isDigit = true := by
  intro fuel
  induction fuel with
  | zero => intro n h; exact absurd h (Nat.not_lt_zero n)
  | succ fuel ih =>
    intro n h
    by_cases h10 : n < 10
    · simp only [natDigitsAux, if_pos h10]
      refine ⟨by simp, fun c hc => ?_⟩
      simp only [List.mem_singleton] at hc
      subst hc
      exact isDigit_ofNat_digit n h10
    · simp only [natDigitsAux, if_neg h10]
      have hdiv : n / 10 < fuel := by
        have h1 : n / 10 < n := Nat.div_lt_self (by omega) (by omega)
        omega
      obtain ⟨hne, hdig⟩ := ih (n / 10) hdiv
      refine ⟨by simp, fun c hc => ?_⟩
      rcases List.mem_append.mp hc with hc | hc
      · exact hdig c hc
      · simp only [List.mem_singleton] at hc
        subst hc
        exact isDigit_ofNat_digit (n % 10) (Nat.mod_lt n (by omega))

theorem natDigits_ne_nil (n : Nat) : natDigits n ≠ [] :=
  (natDigitsAux_spec (n + 1) n (Nat.lt_succ_self n)).1

theorem natDigits_digits (n : Nat) : ∀ c ∈ natDigits n, c.isDigit = true :=
  (natDigitsAux_spec (n + 1) n (Nat.lt_succ_self n)).2

theorem takeWhile_digits_append (ds t : List Char)
    (h : ∀ c ∈ ds, c.isDigit = true) :
    (ds ++ '~' :: t).takeWhile Char.isDigit = ds ∧
      (ds ++ '~' :: t).dropWhile Char.isDigit = '~' :: t := by
  have h7 : Char.isDigit '~' = false := by decide
  induction ds with
  | nil =>
    constructor
    · simp [List.takeWhile_cons, h7]
    · simp [List.dropWhile_cons, h7]
  | cons d ds ih =>
    have hd : d.isDigit = true := h d (List.mem_cons_self d ds)
    obtain ⟨h1, h2⟩ := ih (fun c hc => h c (List.mem_cons_of_mem d hc))
    constructor
    · simp [List.takeWhile_cons, hd, h1]
    · simp [List.dropWhile_cons, hd, h2]

theorem matchMarker_header {ds : List Char} (t : List Char) (hne : ds ≠ [])
    (hdig : ∀ c ∈ ds, c.isDigit = true) :
    matchMarker ('~' :: 'm' :: '~' :: (ds ++ '~' :: 'm' :: '~' :: t)) = some t := by
  obtain ⟨htw, hdw⟩ := takeWhile_digits_append ds ('m' :: '~' :: t) hdig
  simp only [matchMarker, if_pos (And.intro rfl (And.intro rfl rfl)), hdw, htw]
  simp [hne]

/-- Canonical fuelled invocation: fuel one more than the input length. -/
def splitRun (acc : List Char) (l : List Char) : List (List Char) :=
  splitMarkerAux (l.length + 1) acc l

theorem splitMarkerAux_fuel : ∀ (f : Nat) (l acc : List Char) (f' : Nat),
    l.length < f → l.length < f' →
    splitMarkerAux f acc l = splitMarkerAux f' acc l := by
  intro f
  induction f with
  | zero => intro l acc f' h; exact absurd h (Nat.not_lt_zero _)
  | succ f ih =>
    intro l acc f' h h'
    cases l with
    | nil =>
      cases f' with
      | zero => exact absurd h' (Nat.not_lt_zero _)
      | succ f'' => rfl
    | cons c rest =>
      cases f' with
      | zero => exact absurd h' (Nat.not_lt_zero _)
      | succ f'' =>
        simp only [List.length_cons] at h h'
        cases hm : matchMarker (c :: rest) with
        | some rem =>
          have hlen := matchMarker_some_len hm
          simp only [List.length_cons] at hlen
          simp only [splitMarkerAux, hm]
          rw [ih rem [] f'' (by omega) (by omega)]
        | none =>
          simp only [splitMarkerAux, hm]
          exact ih rest (c :: acc) f'' (by omega) (by omega)

theorem splitRun_nil (acc : List Char) : splitRun acc [] = [acc.reverse] := rfl

theorem splitRun_cons_some {c : Char} {rest rem : List Char} (acc : List Char)
    (h : matchMarker (c :: rest) = some rem) :
    splitRun acc (c :: rest) = acc.reverse :: splitRun [] rem := by
  have hlen := matchMarker_some_len h
  simp only [List.length_cons] at hlen
  unfold splitRun
  simp only [List.length_cons, splitMarkerAux, h]
  rw [splitMarkerAux_fuel (rest.length + 1) rem [] (rem.length + 1) (by omega)
    (by omega)]

theorem splitRun_cons_none {c : Char} {rest : List Char} (acc : List Char)
    (h : matchMarker (c :: rest) = none) :
    splitRun acc (c :: rest) = splitRun (c :: acc) rest := by
  unfold splitRun
  simp only [List.length_cons, splitMarkerAux, h]

theorem splitMarker_eq_splitRun (message : List Char) :
    splitMarker message = splitRun [] message := rfl

theorem hasTM_tail {a : Char} {p : List Char} (h : hasTM (a :: p) = false) :
    hasTM p = false := by
  cases p with
  | nil => rfl
  | cons b q =>
    cases q with
    | nil => rfl
    | cons c t =>
      simp only [hasTM, Bool.or_eq_false_iff] at h
      exact h.2

theorem matchMarker_append_none (p rest' : List Char) (hp : hasTM p = false)
    (hr : rest' = [] ∨ ∃ r, rest' = '~' :: 'm' :: '~' :: r) (hne : p ≠ []) :
    matchMarker (p ++ rest') = none := by
  match p with
  | [] => exact absurd rfl hne
  | [a] =>
    rcases hr with rfl | ⟨r, rfl⟩
    · rfl
    · show matchMarker (a :: '~' :: 'm' :: '~' :: r) = none
      simp only [matchMarker]
      rw [if_neg]
      rintro ⟨-, h2, -⟩
      exact absurd h2 (by decide)
  | [a, b] =>
    rcases hr with rfl | ⟨r, rfl⟩
    · rfl
    · show matchMarker (a :: b :: '~' :: 'm' :: '~' :: r) = none
      simp only [matchMarker]
      split
      · have hdm : Char.isDigit 'm' = false := by decide
        have hdw : ('m' :: '~' :: r).dropWhile Char.isDigit = 'm' :: '~' :: r := by
          simp [List.dropWhile_cons, hdm]
        simp only [hdw]
        cases r with
        | nil => rfl
        | cons x xs =>
          exact if_neg (by rintro ⟨-, h2, -⟩; exact absurd h2 (by decide))
      · rfl
  | a :: b :: c :: t =>
    have hcond : ¬(a = '~' ∧ b = 'm' ∧ c = '~') := by
      intro hc
      simp only [hasTM, Bool.or_eq_false_iff] at hp
      exact absurd hc (of_decide_eq_false hp.1)
    show matchMarker (a :: b :: c :: (t ++ rest')) = none
    simp only [matchMarker]
    rw [if_neg hcond]

theorem splitRun_through_payload :
    ∀ (p : List Char), hasTM p = false →
      ∀ (rest' acc : List Char),
        (rest' = [] ∨ ∃ r, rest' = '~' :: 'm' :: '~' :: r) →
        splitRun acc (p ++ rest') = splitRun (p.reverse ++ acc) rest' := by
  intro p
  induction p with
  | nil =>
    intro _ rest' acc _
    simp
  | cons a p ih =>
    intro h rest' acc hr
    have hnone : matchMarker ((a :: p) ++ rest') = none :=
      matchMarker_append_none (a :: p) rest' h hr (by simp)
    rw [show (a :: p) ++ rest' = a :: (p ++ rest') from rfl] at hnone ⊢
    rw [splitRun_cons_none acc hnone]
    rw [ih (hasTM_tail h) rest' (a :: acc) hr]
    have hacc : p.reverse ++ (a :: acc) = (a :: p).reverse ++ acc := by
      simp
    rw [hacc]

theorem splitRun_encoded :
    ∀ (ps : List (List Char)) (acc : List Char),
      (∀ q ∈ ps, hasTM q = false) →
      splitRun acc (List.flatten (ps.map encodeFrame)) = acc.reverse :: ps := by
  intro ps
  induction ps with
  | nil =>
    intro acc _
    simp [splitRun_nil]
  | cons q ps ih =>
    intro acc h
    have hassoc : List.flatten ((q :: ps).map encodeFrame) =
        '~' :: 'm' :: '~' ::
          (natDigits q.length ++ '~' :: 'm' :: '~' ::
            (q ++ List.flatten (ps.map encodeFrame))) := by
      simp [encodeFrame, wrapEnvelope, List.append_assoc]
    rw [hassoc]
    have hmatch := matchMarker_header (q ++ List.flatten (ps.map encodeFrame))
      (natDigits_ne_nil q.length) (natDigits_digits q.length)
    rw [splitRun_cons_some acc hmatch]
    have hrest : List.flatten (ps.map encodeFrame) = [] ∨
        ∃ r, List.flatten (ps.map encodeFrame) = '~' :: 'm' :: '~' :: r := by
      cases ps with
      | nil => exact Or.inl rfl
      | cons q2 ps2 =>
        refine Or.inr ⟨natDigits q2.length ++ '~' :: 'm' :: '~' ::
          (q2 ++ List.flatten (ps2.map encodeFrame)), ?_⟩
        simp [encodeFrame, wrapEnvelope, List.append_assoc]
    rw [splitRun_through_payload q (h q (List.mem_cons_self q ps)) _ [] hrest]
    rw [List.append_nil]
    rw [ih q.reverse (fun x hx => h x (List.mem_cons_of_mem q hx))]
    simp

theorem parseMessage_encodeFrames (ps : List (List Char))
    (h : ∀ q ∈ ps, hasTM q = false) :
    parseMessage (List.flatten (ps.map encodeFrame)) = ps.map classify := by
  cases ps with
  | nil => rfl
  | cons q ps2 =>
    unfold parseMessage
    rw [if_neg (by simp [encodeFrame, wrapEnvelope])]
    rw [splitMarker_eq_splitRun, splitRun_encoded (q :: ps2) [] h]
    rfl

end CodecLemmas

/-! ### Lemmas about the pagination completion handler -/

section PaginationLemmas

theorem stallAfter_no_growth {s : FetchState} (h1 : 0 < s.requestCount)
    (h2 : (dedupSort s.rawCandles).length = s.lastLength) :
    stallAfter s (dedupSort s.rawCandles).length = s.stallCount + 1 :=
  if_pos ⟨h1, h2⟩

theorem needMoreAfter_stall3 (p : FetchParams) (raw : List RawCandle)
    {stall : Nat} (h : 3 ≤ stall) : needMoreAfter p raw stall = false := by
  have hcut : (if stall ≥ 3 then false else true) = false := if_pos h
  unfold needMoreAfter
  simp only [hcut, ite_self]

/-- Under no growth with a prior request and a NONEMPTY accumulator, a
completion either sends a follow-up request cleanly (the oldest bar exists,
so the line-118 log does not throw) or finalizes; in both cases the stall
counter advances. -/
theorem onCompletion_no_growth (p : FetchParams) (s : FetchState)
    (h1 : 0 < s.requestCount)
    (h2 : (dedupSort s.rawCandles).length = s.lastLength)
    (h3 : dedupSort s.rawCandles ≠ []) :
    onCompletion p s =
      ⟨{ rawCandles := dedupSort s.rawCandles,
         requestCount := s.requestCount + 1,
         lastLength := (dedupSort s.rawCandles).length,
         stallCount := s.stallCount + 1 }, true, none, false⟩ ∨
    onCompletion p s =
      ⟨{ rawCandles := dedupSort s.rawCandles,
         requestCount := s.requestCount,
         lastLength := (dedupSort s.rawCandles).length,
         stallCount := s.stallCount + 1 }, false,
        some (finalize p (dedupSort s.rawCandles)), false⟩ := by
  obtain ⟨c, t, hct⟩ : ∃ c t, dedupSort s.rawCandles = c :: t := by
    cases hd : dedupSort s.rawCandles with
    | nil => exact absurd hd h3
    | cons c t => exact ⟨c, t, rfl⟩
  simp only [onCompletion]
  rw [stallAfter_no_growth h1 h2]
  by_cases hnm : needMoreAfter p (dedupSort s.rawCandles) (s.stallCount + 1) = true
  · refine Or.inl ?_
    rw [if_pos hnm, hct]
    rfl
  · exact Or.inr (by rw [if_neg hnm])

theorem onCompletion_stalled (p : FetchParams) (s : FetchState)
    (h1 : 0 < s.requestCount)
    (h2 : (dedupSort s.rawCandles).length = s.lastLength)
    (h3 : 2 ≤ s.stallCount) :
    onCompletion p s =
      ⟨{ rawCandles := dedupSort s.rawCandles,
         requestCount := s.requestCount,
         lastLength := (dedupSort s.rawCandles).length,
         stallCount := s.stallCount + 1 }, false,
        some (finalize p (dedupSort s.rawCandles)), false⟩ := by
  simp only [onCompletion]
  rw [stallAfter_no_growth h1 h2,
    needMoreAfter_stall3 p (dedupSort s.rawCandles) (by omega)]
  rw [if_neg (fun h => Bool.false_ne_true h)]

end PaginationLemmas

/-! ## Claim theorems -/

/-- C1, counterexample: the claim says the finalized sequence keeps the
most-recently-accumulated value per duplicated timestamp.  Batches are
prepended (`newCandles.concat(rawCandles)`), so the most recent batch sits at
the front of the accumulator; the `Map`-based dedup iterates front-to-back and
the LAST write wins, i.e. the entry from the EARLIEST batch.  Here the first
batch holds `⟨0,[100,1,1,1,1,1]⟩` and the later batch holds
`⟨0,[100,2,2,2,2,2]⟩` for the same timestamp 100; the finalized sequence keeps
the old value, not the new one. -/
theorem dedupSort_most_recent_counterexample :
    accumulate (accumulate [] [⟨0, [100, 1, 1, 1, 1, 1]⟩])
        [(⟨0, [100, 2, 2, 2, 2, 2]⟩ : RawCandle)] =
      [⟨0, [100, 2, 2, 2, 2, 2]⟩, ⟨0, [100, 1, 1, 1, 1, 1]⟩] ∧
    dedupSort [⟨0, [100, 2, 2, 2, 2, 2]⟩, ⟨0, [100, 1, 1, 1, 1, 1]⟩] =
      [⟨0, [100, 1, 1, 1, 1, 1]⟩] ∧
    (⟨0, [100, 1, 1, 1, 1, 1]⟩ : RawCandle) ≠ ⟨0, [100, 2, 2, 2, 2, 2]⟩ :=
  ⟨by decide, by decide, by decide⟩

/-- C1 (amended): for every accumulated `RawCandle` sequence, the finalized
sequence contains each timestamp exactly once and is sorted strictly
ascending; for each duplicated timestamp it retains the LAST occurrence in
accumulator order — the EARLIEST-accumulated value, since newly delivered
batches are prepended. -/
theorem dedupSort_unique_sorted_lastOccurrence (l : List RawCandle) :
    ((dedupSort l).map tsOf).Nodup ∧
    (dedupSort l).Pairwise (fun a b => tsOf a < tsOf b) ∧
    (∀ t : Int, t ∈ (dedupSort l).map tsOf ↔ t ∈ l.map tsOf) ∧
    (∀ c ∈ dedupSort l, lastWrite tsOf (tsOf c) l = some c) :=
  ⟨dedupSort_ts_nodup l, dedupSort_sorted_lt l, fun t => mem_ts_dedupSort l t,
    fun _ hc => dedupSort_lastWrite hc⟩

/-- Witness for the C1 theorem at a concrete two-element accumulator. -/
theorem dedupSort_unique_sorted_lastOccurrence_witness :
    lastWrite tsOf 100
        [(⟨0, [100, 2, 2, 2, 2, 2]⟩ : RawCandle), ⟨0, [100, 1, 1, 1, 1, 1]⟩] =
      some ⟨0, [100, 1, 1, 1, 1, 1]⟩ :=
  (dedupSort_unique_sorted_lastOccurrence
      [⟨0, [100, 2, 2, 2, 2, 2]⟩, ⟨0, [100, 1, 1, 1, 1, 1]⟩]).2.2.2
    ⟨0, [100, 1, 1, 1, 1, 1]⟩ (by decide)

/-- C2, counterexample: `targetAmount = 10`, an initial partial batch of 4,
then three consecutive completion events with 0 new bars.  The claim expects
the fetch to resolve with 4 bars after exactly 2 `request_more_data` commands;
the code sends a request at each of the three completions (the stall counter
is 0, 1, 2 there — it only starts counting after a first follow-up request)
and is still unresolved. -/
theorem stall_scenario_counterexample :
    (runEvents ⟨"cs_test".toList, some 10, none, none⟩ initFetchState
        [TVEvent.timescaleUpdate "cs_test".toList
            [("sds_1".toList,
              [⟨0, [1, 10, 11, 9, 10, 100]⟩, ⟨0, [2, 10, 11, 9, 10, 100]⟩,
               ⟨0, [3, 10, 11, 9, 10, 100]⟩, ⟨0, [4, 10, 11, 9, 10, 100]⟩])],
         TVEvent.seriesCompleted "cs_test".toList,
         TVEvent.seriesCompleted "cs_test".toList,
         TVEvent.seriesCompleted "cs_test".toList]).requests = 3 ∧
    (runEvents ⟨"cs_test".toList, some 10, none, none⟩ initFetchState
        [TVEvent.timescaleUpdate "cs_test".toList
            [("sds_1".toList,
              [⟨0, [1, 10, 11, 9, 10, 100]⟩, ⟨0, [2, 10, 11, 9, 10, 100]⟩,
               ⟨0, [3, 10, 11, 9, 10, 100]⟩, ⟨0, [4, 10, 11, 9, 10, 100]⟩])],
         TVEvent.seriesCompleted "cs_test".toList,
         TVEvent.seriesCompleted "cs_test".toList,
         TVEvent.seriesCompleted "cs_test".toList]).result = none ∧
    (runEvents ⟨"cs_test".toList, some 10, none, none⟩ initFetchState
        [TVEvent.timescaleUpdate "cs_test".toList
            [("sds_1".toList,
              [⟨0, [1, 10, 11, 9, 10, 100]⟩, ⟨0, [2, 10, 11, 9, 10, 100]⟩,
               ⟨0, [3, 10, 11, 9, 10, 100]⟩, ⟨0, [4, 10, 11, 9, 10, 100]⟩])],
         TVEvent.seriesCompleted "cs_test".toList,
         TVEvent.seriesCompleted "cs_test".toList,
         TVEvent.seriesCompleted "cs_test".toList]).threw = false := by
  refine ⟨by decide, by decide, by decide⟩

/-- C2 (amended): in the same scenario the fetch completes early only at a
FOURTH consecutive completion event, resolving with the 4 accumulated bars,
and exactly 3 `request_more_data` commands have been sent by then (the third
stall is observed at the fourth completion and triggers termination instead
of a fourth request). -/
theorem stall_scenario_four_completions :
    (runEvents ⟨"cs_test".toList, some 10, none, none⟩ initFetchState
        [TVEvent.timescaleUpdate "cs_test".toList
            [("sds_1".toList,
              [⟨0, [1, 10, 11, 9, 10, 100]⟩, ⟨0, [2, 10, 11, 9, 10, 100]⟩,
               ⟨0, [3, 10, 11, 9, 10, 100]⟩, ⟨0, [4, 10, 11, 9, 10, 100]⟩])],
         TVEvent.seriesCompleted "cs_test".toList,
         TVEvent.seriesCompleted "cs_test".toList,
         TVEvent.seriesCompleted "cs_test".toList,
         TVEvent.seriesCompleted "cs_test".toList]).requests = 3 ∧
    (runEvents ⟨"cs_test".toList, some 10, none, none⟩ initFetchState
        [TVEvent.timescaleUpdate "cs_test".toList
            [("sds_1".toList,
              [⟨0, [1, 10, 11, 9, 10, 100]⟩, ⟨0, [2, 10, 11, 9, 10, 100]⟩,
               ⟨0, [3, 10, 11, 9, 10, 100]⟩, ⟨0, [4, 10, 11, 9, 10, 100]⟩])],
         TVEvent.seriesCompleted "cs_test".toList,
         TVEvent.seriesCompleted "cs_test".toList,
         TVEvent.seriesCompleted "cs_test".toList,
         TVEvent.seriesCompleted "cs_test".toList]).result =
      some
        [⟨1, 10, 11, 9, 10, 100⟩, ⟨2, 10, 11, 9, 10, 100⟩,
         ⟨3, 10, 11, 9, 10, 100⟩, ⟨4, 10, 11, 9, 10, 100⟩] ∧
    (runEvents ⟨"cs_test".toList, some 10, none, none⟩ initFetchState
        [TVEvent.timescaleUpdate "cs_test".toList
            [("sds_1".toList,
              [⟨0, [1, 10, 11, 9, 10, 100]⟩, ⟨0, [2, 10, 11, 9, 10, 100]⟩,
               ⟨0, [3, 10, 11, 9, 10, 100]⟩, ⟨0, [4, 10, 11, 9, 10, 100]⟩])],
         TVEvent.seriesCompleted "cs_test".toList,
         TVEvent.seriesCompleted "cs_test".toList,
         TVEvent.seriesCompleted "cs_test".toList,
         TVEvent.seriesCompleted "cs_test".toList]).threw = false := by
  refine ⟨by decide, by decide, by decide⟩

/-- C3, counterexample: with `targetAmount = 10` and no data at all, the
first completion already observes no growth (length stays 0) and decides
`needMore`; the code increments `requestCount` and then throws a TypeError at
line 118 (dereferencing the undefined oldest bar in the log template) BEFORE
`connection.send`.  So after three consecutive no-growth completion events
the fetch has neither resolved nor even issued a request — the loop is
killed by the exception rather than terminating as the claim states. -/
theorem three_stalls_counterexample :
    (runEvents ⟨"cs_test".toList, some 10, none, none⟩ initFetchState
        [TVEvent.seriesCompleted "cs_e".toList,
         TVEvent.seriesCompleted "cs_e".toList,
         TVEvent.seriesCompleted "cs_e".toList]).result = none ∧
    (runEvents ⟨"cs_test".toList, some 10, none, none⟩ initFetchState
        [TVEvent.seriesCompleted "cs_e".toList,
         TVEvent.seriesCompleted "cs_e".toList,
         TVEvent.seriesCompleted "cs_e".toList]).requests = 0 ∧
    (runEvents ⟨"cs_test".toList, some 10, none, none⟩ initFetchState
        [TVEvent.seriesCompleted "cs_e".toList,
         TVEvent.seriesCompleted "cs_e".toList,
         TVEvent.seriesCompleted "cs_e".toList]).threw = true := by
  refine ⟨by decide, by decide, by decide⟩

/-- C3 (amended): once at least one follow-up request has been issued and the
accumulator is nonempty, three consecutive no-growth completion events
terminate the fetch cleanly: it resolves at (or before) the third of them,
at most 2 further `request_more_data` commands are sent during the window
(none at the completion that resolves), and no handler invocation throws.
This holds for every parameter combination, in particular when the
`fromTimestamp` target was never reached.  When instead the deduplicated
accumulator is empty and more data is needed, the completion handler throws
a TypeError before sending (line 118), so the fetch neither requests nor
resolves (see the counterexample). -/
theorem stall_cutoff_terminates (p : FetchParams) (s : FetchState)
    (sess : List Char) (h1 : 0 < s.requestCount)
    (h2 : (dedupSort s.rawCandles).length = s.lastLength)
    (h3 : s.rawCandles ≠ []) :
    ((runEvents p s [TVEvent.seriesCompleted sess, TVEvent.seriesCompleted sess,
        TVEvent.seriesCompleted sess]).result).isSome = true ∧
    (runEvents p s [TVEvent.seriesCompleted sess, TVEvent.seriesCompleted sess,
        TVEvent.seriesCompleted sess]).requests ≤ 2 ∧
    (runEvents p s [TVEvent.seriesCompleted sess, TVEvent.seriesCompleted sess,
        TVEvent.seriesCompleted sess]).threw = false := by
  have hstep : ∀ s' : FetchState,
      handleEvent p s' (TVEvent.seriesCompleted sess) = onCompletion p s' :=
    fun _ => rfl
  have hne1 : dedupSort s.rawCandles ≠ [] := dedupSort_ne_nil h3
  rcases onCompletion_no_growth p s h1 h2 hne1 with hoc1 | hoc1
  · set s1 : FetchState :=
      { rawCandles := dedupSort s.rawCandles,
        requestCount := s.requestCount + 1,
        lastLength := (dedupSort s.rawCandles).length,
        stallCount := s.stallCount + 1 } with hs1
    have h1b : 0 < s1.requestCount := by simp [hs1]
    have h2b : (dedupSort s1.rawCandles).length = s1.lastLength := by
      simp [hs1, dedupSort_idem_length]
    have hne2 : dedupSort s1.rawCandles ≠ [] := dedupSort_ne_nil hne1
    rcases onCompletion_no_growth p s1 h1b h2b hne2 with hoc2 | hoc2
    · set s2 : FetchState :=
        { rawCandles := dedupSort s1.rawCandles,
          requestCount := s1.requestCount + 1,
          lastLength := (dedupSort s1.rawCandles).length,
          stallCount := s1.stallCount + 1 } with hs2
      have h1c : 0 < s2.requestCount := by simp [hs2]
      have h2c : (dedupSort s2.rawCandles).length = s2.lastLength := by
        simp [hs2, dedupSort_idem_length]
      have h3c : 2 ≤ s2.stallCount := by simp [hs2, hs1]
      have hoc3 := onCompletion_stalled p s2 h1c h2c h3c
      refine ⟨?_, ?_, ?_⟩ <;> simp [runEvents, hstep, hoc1, hoc2, hoc3]
    · refine ⟨?_, ?_, ?_⟩ <;> simp [runEvents, hstep, hoc1, hoc2]
  · refine ⟨?_, ?_, ?_⟩ <;> simp [runEvents, hstep, hoc1]

/-- Witness for the C3 theorem: a state with one request already issued and
one bar accumulated, its length recorded as the previous observation. -/
theorem stall_cutoff_terminates_witness :
    ((runEvents ⟨"cs_w".toList, some 10, none, none⟩
        ⟨[⟨0, [5, 10, 11, 9, 10, 100]⟩], 1, 1, 0⟩
        [TVEvent.seriesCompleted "cs_w".toList,
         TVEvent.seriesCompleted "cs_w".toList,
         TVEvent.seriesCompleted "cs_w".toList]).result).isSome = true ∧
    (runEvents ⟨"cs_w".toList, some 10, none, none⟩
        ⟨[⟨0, [5, 10, 11, 9, 10, 100]⟩], 1, 1, 0⟩
        [TVEvent.seriesCompleted "cs_w".toList,
         TVEvent.seriesCompleted "cs_w".toList,
         TVEvent.seriesCompleted "cs_w".toList]).requests ≤ 2 ∧
    (runEvents ⟨"cs_w".toList, some 10, none, none⟩
        ⟨[⟨0, [5, 10, 11, 9, 10, 100]⟩], 1, 1, 0⟩
        [TVEvent.seriesCompleted "cs_w".toList,
         TVEvent.seriesCompleted "cs_w".toList,
         TVEvent.seriesCompleted "cs_w".toList]).threw = false :=
  stall_cutoff_terminates ⟨"cs_w".toList, some 10, none, none⟩
    ⟨[⟨0, [5, 10, 11, 9, 10, 100]⟩], 1, 1, 0⟩
    "cs_w".toList (by decide) (by decide) (by decide)

/-- Every action either leaves the fetch outcome unchanged, resolves it, or
rejects it with the timeout error — the only `reject` in `getCandles`.  No
action produces a connection error. -/
theorem sysStep_outcome_cases (p : FetchParams) (st : Sys) (a : SysAction) :
    (sysStep p st a).outcome = st.outcome ∨
    (∃ r, (sysStep p st a).outcome = FetchOutcome.resolvedWith r) ∨
    (sysStep p st a).outcome = FetchOutcome.rejected FetchErrorKind.timeout := by
  cases a with
  | closeCall => exact Or.inl rfl
  | timeoutFire =>
    cases houtcome : st.outcome with
    | pending =>
      right; right
      simp [sysStep, houtcome]
    | resolvedWith r => exact Or.inl (by simp [sysStep, houtcome])
    | rejected k => exact Or.inl (by simp [sysStep, houtcome])
  | deliver e =>
    cases houtcome : st.outcome with
    | pending =>
      cases hres : (handleEvent p st.fetch e).resolvedValue with
      | some r =>
        right; left
        exact ⟨r, by simp [sysStep, houtcome, hres]⟩
      | none =>
        left
        simp [sysStep, houtcome, hres]
    | resolvedWith r => exact Or.inl (by simp [sysStep, houtcome])
    | rejected k => exact Or.inl (by simp [sysStep, houtcome])

theorem runSys_no_connectionError (p : FetchParams) :
    ∀ (acts : List SysAction) (st : Sys),
      st.outcome ≠ FetchOutcome.rejected FetchErrorKind.connectionError →
      (runSys p st acts).outcome ≠
        FetchOutcome.rejected FetchErrorKind.connectionError := by
  intro acts
  induction acts with
  | nil => exact fun st h => h
  | cons a acts ih =>
    intro st h
    show (runSys p (sysStep p st a) acts).outcome ≠ _
    refine ih _ ?_
    rcases sysStep_outcome_cases p st a with hc | ⟨r, hc⟩ | hc <;> rw [hc]
    · exact h
    · intro hx
      exact FetchOutcome.noConfusion hx
    · intro hx
      exact FetchErrorKind.noConfusion (FetchOutcome.rejected.inj hx)

/-- C5: `close()` does not settle a pending fetch.  First conjunct: the
close action changes neither the fetch outcome nor the handler state (it only
flips the connection flags), so a pending fetch stays pending.  Second: no
sequence of actions ever rejects a fetch with a connection error — the only
rejection the code contains is the 120s timeout.  Third: concretely, closing
while pending and then letting the fetch timer fire rejects with `Timeout`,
not `ConnectionError`. -/
theorem close_leaves_fetch_pending :
    (∀ (p : FetchParams) (st : Sys),
      (sysStep p st SysAction.closeCall).outcome = st.outcome ∧
      (sysStep p st SysAction.closeCall).fetch = st.fetch ∧
      (sysStep p st SysAction.closeCall).conn.manuallyClosed = true) ∧
    (∀ (p : FetchParams) (st : Sys) (acts : List SysAction),
      st.outcome ≠ FetchOutcome.rejected FetchErrorKind.connectionError →
      (runSys p st acts).outcome ≠
        FetchOutcome.rejected FetchErrorKind.connectionError) ∧
    (runSys ⟨"cs_w5".toList, some 10, none, none⟩
        ⟨⟨true, 0, false, true⟩, initFetchState, FetchOutcome.pending⟩
        [SysAction.closeCall, SysAction.timeoutFire]).outcome =
      FetchOutcome.rejected FetchErrorKind.timeout := by
  refine ⟨fun p st => ⟨rfl, rfl, ?_⟩,
    fun p st acts h => runSys_no_connectionError p acts st h, by decide⟩
  show ((onSocketClose (closeConn st.conn)).1).manuallyClosed = true
  unfold onSocketClose
  split <;> rfl

/-- Witness for the universally quantified no-connection-error conjunct of
the C5 theorem, at a concrete pending system state. -/
theorem close_leaves_fetch_pending_witness :
    (runSys ⟨"cs_w5".toList, some 10, none, none⟩
        ⟨⟨true, 0, false, true⟩, initFetchState, FetchOutcome.pending⟩
        [SysAction.closeCall]).outcome ≠
      FetchOutcome.rejected FetchErrorKind.connectionError :=
  close_leaves_fetch_pending.2.1 ⟨"cs_w5".toList, some 10, none, none⟩
    ⟨⟨true, 0, false, true⟩, initFetchState, FetchOutcome.pending⟩
    [SysAction.closeCall] (by decide)

/-- C6: dispatch is `subscribers.forEach((handler) => handler(event))` with no
exception handling: a throwing handler aborts the iteration.  With two
registered handlers where the first throws, only 1 handler is invoked even
though 2 are registered — the second never receives the event, where the
claim requires isolated invocations. -/
theorem dispatch_aborts_on_throw :
    forEachCalls (TVEvent.otherEvent "tick".toList)
        [fun _ => Except.error (), fun _ => Except.ok ()] = 1 ∧
    ([fun _ => Except.error (), fun _ => Except.ok ()] :
        List (TVEvent → Except Unit Unit)).length = 2 :=
  ⟨rfl, rfl⟩

/-- C4: the subscriber handler of `getCandles` never compares the session id
embedded in an event with its own chart session.  First conjunct: the two
session ids below differ.  Second: the handler result does not depend on the
session id of the event at all.  Third: a fetch whose chart session is
`cs_AAAAAAAAAAAA` accumulates a bar carried by a `timescale_update` addressed
to `cs_BBBBBBBBBBBB` — cross-talk, where the claim requires the event to be
discarded. -/
theorem crosstalk_not_filtered :
    ("cs_BBBBBBBBBBBB".toList ≠ "cs_AAAAAAAAAAAA".toList) ∧
    (∀ (p : FetchParams) (s : FetchState) (sess sess' : List Char)
        (series : List (List Char × List RawCandle)),
      handleEvent p s (TVEvent.timescaleUpdate sess series) =
        handleEvent p s (TVEvent.timescaleUpdate sess' series)) ∧
    handleEvent ⟨"cs_AAAAAAAAAAAA".toList, some 10, none, none⟩ initFetchState
        (TVEvent.timescaleUpdate "cs_BBBBBBBBBBBB".toList
          [("sds_1".toList, [⟨0, [1, 2, 3, 1, 2, 9]⟩])]) =
      ⟨{ initFetchState with rawCandles := [⟨0, [1, 2, 3, 1, 2, 9]⟩] },
        false, none, false⟩ :=
  ⟨by decide, fun _ _ _ _ _ => rfl, by decide⟩

/-- C7, counterexample: a single well-formed frame whose payload happens to
contain the delimiter pattern (`x~m~1~m~y`, correctly declared as 9
characters long) is split into 2 frames by the regex-based decode, because
decode ignores the declared length and splits on every occurrence of the
pattern. -/
theorem frame_split_counterexample :
    (parseMessage (encodeFrame ('x' :: '~' :: 'm' :: '~' :: '1' :: '~' :: 'm' :: '~' :: 'y' :: []))).length = 2 := by
  decide

/-- C7 (amended): for every chunk built from N well-formed frames whose
payloads do not contain the three-character marker `~m~`, decode returns
exactly N frames, the i-th decoded from the i-th payload in arrival order. -/
theorem parse_wellformed_frames (ps : List (List Char))
    (h : ∀ q ∈ ps, hasTM q = false) :
    parseMessage (List.flatten (ps.map encodeFrame)) = ps.map classify ∧
    (parseMessage (List.flatten (ps.map encodeFrame))).length = ps.length := by
  have h1 := parseMessage_encodeFrames ps h
  exact ⟨h1, by rw [h1, List.length_map]⟩

/-- Witness for the C7 theorem on a concrete two-frame chunk. -/
theorem parse_wellformed_frames_witness :
    parseMessage (List.flatten ([['a', 'b'], ['c']].map encodeFrame)) =
      [['a', 'b'], ['c']].map classify :=
  (parse_wellformed_frames [['a', 'b'], ['c']] (by decide)).1

/-- C8: for every heartbeat payload (first three characters `~h~`), the echo
prepared by decode is the payload re-wrapped in the length-prefixed envelope,
and that envelope constructor is the same one `formatMessage` uses for
outgoing frames — the echo is byte-identical to a validly enveloped reply. -/
theorem heartbeat_echo_envelope (e : List Char)
    (h : e.take 3 = ['~', 'h', '~']) :
    classify e = MessagePayload.ping (wrapEnvelope e) ∧
    formatMessage e = wrapEnvelope e := by
  unfold classify
  rw [if_pos h]
  exact ⟨rfl, rfl⟩

/-- Witness for the C8 theorem at the concrete heartbeat payload `~h~7`. -/
theorem heartbeat_echo_envelope_witness :
    classify ('~' :: 'h' :: '~' :: '7' :: []) =
      MessagePayload.ping (wrapEnvelope ('~' :: 'h' :: '~' :: '7' :: [])) :=
  (heartbeat_echo_envelope ('~' :: 'h' :: '~' :: '7' :: []) (by decide)).1

/-- C9: the reconnect delay is `min(5000 * 1.5^attempts, 60000)`: 5000, 7500,
11250, 16875 ms for attempts 0..3, never above the 60000 cap; the `open`
handler resets the counter to 0, so the delay scheduled by a close right
after a successful reopen is 5000 again (when auto-reconnect applies). -/
theorem reconnect_delay_schedule :
    reconnectDelay 0 = 5000 ∧ reconnectDelay 1 = 7500 ∧
    reconnectDelay 2 = 11250 ∧ reconnectDelay 3 = 16875 ∧
    (∀ n : Nat, reconnectDelay n ≤ 60000) ∧
    (∀ c : ConnState, (onSocketOpen c).reconnectAttempts = 0 ∧
      (onSocketClose (onSocketOpen c)).2 =
        (if c.autoReconnect && !c.manuallyClosed then some (reconnectDelay 0)
         else none)) := by
  refine ⟨by norm_num [reconnectDelay], by norm_num [reconnectDelay],
    by norm_num [reconnectDelay], by norm_num [reconnectDelay],
    fun n => min_le_right _ _, fun c => ⟨rfl, ?_⟩⟩
  unfold onSocketClose onSocketOpen
  split <;> rfl

theorem lastWrite_not_mem {γ α : Type} [DecidableEq α] (key : γ → α) (a : α) :
    ∀ {l : List γ}, a ∉ l.map key → lastWrite key a l = none := by
  intro l
  induction l with
  | nil => intro _; rfl
  | cons x xs ih =>
    intro h
    simp only [List.map_cons, List.mem_cons] at h
    push_neg at h
    have h2 := ih h.2
    have hne : ¬key x = a := fun hx => h.1 hx.symm
    simp [lastWrite, h2, hne]

theorem lastWrite_id_mem {α : Type} [DecidableEq α] {s : α} :
    ∀ {l : List α}, s ∈ l → lastWrite id s l = some s := by
  intro l
  induction l with
  | nil => intro h; cases h
  | cons x xs ih =>
    intro h
    by_cases hx : s ∈ xs
    · simp [lastWrite, ih hx]
    · have hxs : x = s := by
        rcases List.mem_cons.mp h with h' | h'
        · exact h'.symm
        · exact absurd h' hx
      have hnone : lastWrite id s xs = none :=
        lastWrite_not_mem id s (by simpa using hx)
      simp [lastWrite, hnone, hxs]

/-- C10: `getCandlesMultiple` never rejects — the per-symbol failure is
caught and replaced by `[]` — and resolves with a map holding exactly one
entry per requested symbol: its key set is exactly the requested symbols
(each key once), and each requested symbol maps to its `getCandles` result,
or to `[]` if that call failed. -/
theorem getCandlesMultiple_total_map
    (fetchResult : List Char → Except Unit (List Candle))
    (symbols : List (List Char)) :
    ((getCandlesMultiple fetchResult symbols).map Prod.fst).Nodup ∧
    (∀ s : List Char,
      s ∈ (getCandlesMultiple fetchResult symbols).map Prod.fst ↔
        s ∈ symbols) ∧
    (∀ s ∈ symbols,
      jsLookup s (getCandlesMultiple fetchResult symbols) =
        some (match fetchResult s with
          | .ok candles => candles
          | .error _ => [])) := by
  refine ⟨nodup_keys_jsMapOf _ _ _, fun s => ?_, fun s hs => ?_⟩
  · rw [getCandlesMultiple, mem_keys_jsMapOf]
    simp
  · rw [getCandlesMultiple, jsLookup_jsMapOf, lastWrite_id_mem hs]

/-- Witness for the C10 theorem: two symbols, the second one failing. -/
theorem getCandlesMultiple_total_map_witness :
    jsLookup ['B']
        (getCandlesMultiple
          (fun s => if s = ['B'] then Except.error () else Except.ok [])
          [['A'], ['B']]) =
      some [] := by
  have h := (getCandlesMultiple_total_map
      (fun s => if s = ['B'] then Except.error () else Except.ok [])
      [['A'], ['B']]).2.2 ['B'] (by decide)
  rw [h]
  decide

end ScrapperTV
